import Mathlib

/-!
Verification of the two reusable core utilities of the thundernest.github.io
repository against their source:

* `compareVer` — the multi-segment version comparator of the add-on
  compatibility report generator (`src/unnamed/part_000`, lines 773–800).
* `extractFlatPolicyNamesFromPolicySchema` / `checkPolicySchemaChanges` — the
  schema flattening and diffing pass of the enterprise policy template
  generator (`script/update_policy_templates.js`, lines 331–363).

JavaScript values are embedded as the inductive `JSVal`; objects are
insertion-ordered association lists (the iteration order of
`Object.entries` for the non-numeric string keys that appear in policy
schemas). Machine arithmetic (`~~`, i.e. `ToInt32 ∘ ToNumber`) is modeled
over `Int` with an explicit two's-complement wrap.
-/

/-- A JavaScript value as used by the schema differ: JSON data plus the two
non-JSON values `null` and `undefined` that the guards of
`checkPolicySchemaChanges` have to handle. Objects are insertion-ordered
association lists. Numbers are modeled as integers (the schema files contain
no fractional numbers; `JSON.stringify` prints integral doubles the same
way). -/
inductive JSVal where
  | undefined : JSVal
  | null : JSVal
  | bool : Bool → JSVal
  | num : Int → JSVal
  | str : String → JSVal
  | arr : List JSVal → JSVal
  | obj : List (String × JSVal) → JSVal

mutual

/-- Size of a value, used as recursion fuel below: it strictly bounds the
size of every value reachable through object fields and array elements. -/
def jsSize : JSVal → Nat
  | .undefined => 1
  | .null => 1
  | .bool _ => 1
  | .num _ => 1
  | .str _ => 1
  | .arr vs => 1 + jsSizeList vs
  | .obj fs => 1 + jsSizeFields fs

def jsSizeList : List JSVal → Nat
  | [] => 1
  | v :: rest => 1 + jsSize v + jsSizeList rest

def jsSizeFields : List (String × JSVal) → Nat
  | [] => 1
  | (_, v) :: rest => 1 + jsSize v + jsSizeFields rest

end

/-- First binding of a key in an association list, `undefined` when absent. -/
def jsFind : List (String × JSVal) → String → JSVal
  | [], _ => .undefined
  | (k, v) :: rest, key => if k = key then v else jsFind rest key

/-- Property access `v[key]`: own-property lookup on objects, `undefined` on
primitives for the schema keys used here. (In JS, access on `null` or
`undefined` itself throws; the only such access in the modeled code is behind
optional chaining `?.`, which yields `undefined`, as modeled here.) -/
def jsGet : JSVal → String → JSVal
  | .obj fs, key => jsFind fs key
  | _, _ => .undefined

/-- JS truthiness: `undefined`, `null`, `false`, `0` and `""` are falsy,
everything else (in particular every object) is truthy. -/
def truthy : JSVal → Bool
  | .undefined => false
  | .null => false
  | .bool b => b
  | .num n => n != 0
  | .str s => s != ""
  | .arr _ => true
  | .obj _ => true

/-- `Object.entries` in insertion order for objects. Non-object values have
no own enumerable entries (numbers, booleans); the schema traversal only
reaches this through a truthiness guard, and `properties` /
`patternProperties` values are objects in schema data. (A truthy *string*
would enumerate index–character pairs in JS; that case cannot arise from
schema JSON and is not modeled.) -/
def jsEntries : JSVal → List (String × JSVal)
  | .obj fs => fs
  | _ => []

/-- The entries iterated by `extractFlatPolicyNamesFromPolicySchema` for one
grouping value `g = data[key]`: the loop body runs only `if (data[key])`. -/
def groupEntries (g : JSVal) : List (String × JSVal) :=
  if truthy g then jsEntries g else []

def isUndefined : JSVal → Bool
  | .undefined => true
  | _ => false

/-- Characters escaped by `JSON.stringify` in string values: quote,
backslash and the common control characters. (Other control characters use
`\uXXXX` escapes in JS; they do not occur in policy schema data.) -/
def jsonEscapeChar (c : Char) : List Char :=
  if c = '"' then ['\\', '"']
  else if c = '\\' then ['\\', '\\']
  else if c = '\n' then ['\\', 'n']
  else if c = '\t' then ['\\', 't']
  else if c = '\r' then ['\\', 'r']
  else [c]

def jsonQuote (s : String) : String :=
  "\"" ++ String.mk (s.toList.flatMap jsonEscapeChar) ++ "\""

/-- `JSON.stringify`, fueled for structural recursion; `jsonStr` below
supplies fuel `jsSize v`, which bounds the nesting depth, so the fuel never
runs out. Object members whose value is `undefined` are omitted, an
`undefined` array element prints as `null`, members keep insertion order. -/
def jsonStrFuel : Nat → JSVal → String
  | 0, _ => ""
  | fuel + 1, v =>
    match v with
    | .undefined => "null"
    | .null => "null"
    | .bool b => if b then "true" else "false"
    | .num n => toString n
    | .str s => jsonQuote s
    | .arr vs => "[" ++ String.intercalate "," (vs.map (fun x => jsonStrFuel fuel x)) ++ "]"
    | .obj fs =>
        "\x7b" ++
          String.intercalate ","
            ((fs.filter (fun p => !isUndefined p.2)).map
              (fun p => jsonQuote p.1 ++ ":" ++ jsonStrFuel fuel p.2)) ++
          "\x7d"

/-- Deterministic deep serialization of a defined value, `JSON.stringify v`. -/
def jsonStr (v : JSVal) : String := jsonStrFuel (jsSize v) v

/-- `JSON.stringify` at the top level: `undefined` serializes to `undefined`
(no string), modeled as `none`; everything else to its JSON text. -/
def jsonStringifyOpt (v : JSVal) : Option String :=
  match v with
  | .undefined => none
  | v => some (jsonStr v)

/-- `extractFlatPolicyNamesFromPolicySchema`, fueled for structural
recursion; the wrapper below supplies fuel `jsSize data`, which bounds the
nesting depth, so the fuel never runs out. For each of the grouping keys
`properties` then `patternProperties` whose value is truthy, every entry
`(name, entry)` contributes `name` followed by the recursively flattened
names of `entry` prefixed with `name_` (pushing a possibly empty spread is
appending the possibly empty mapped list). -/
def extractFlatFuel : Nat → JSVal → List String
  | 0, _ => []
  | fuel + 1, data =>
    (groupEntries (jsGet data "properties") ++
        groupEntries (jsGet data "patternProperties")).flatMap
      (fun p => p.1 :: (extractFlatFuel fuel p.2).map (fun e => p.1 ++ "_" ++ e))

/-- `extractFlatPolicyNamesFromPolicySchema(data)` from
`update_policy_templates.js` lines 331–343. -/
def extractFlatPolicyNamesFromPolicySchema (data : JSVal) : List String :=
  extractFlatFuel (jsSize data) data

/-- Modelled from the spec: the flattening *with the sub-node bound to each
flat name* ("emit the child's own name as a flat key bound to the child
node"). The source function returns the names only; this companion returns
the name→node pairs the spec's `changed` clause refers to. -/
def extractFlatPairsFuel : Nat → JSVal → List (String × JSVal)
  | 0, _ => []
  | fuel + 1, data =>
    (groupEntries (jsGet data "properties") ++
        groupEntries (jsGet data "patternProperties")).flatMap
      (fun p => (p.1, p.2) ::
        (extractFlatPairsFuel fuel p.2).map (fun q => (p.1 ++ "_" ++ q.1, q.2)))

/-- Modelled from the spec: name→node form of the flattening. -/
def extractFlatPairs (data : JSVal) : List (String × JSVal) :=
  extractFlatPairsFuel (jsSize data) data

/-- Specification-side description of one flattening step, used to state
what the traversal emits for a list of named children. -/
def flatEntries (l : List (String × JSVal)) : List String :=
  l.flatMap
    (fun p => p.1 :: (extractFlatPolicyNamesFromPolicySchema p.2).map
      (fun e => p.1 ++ "_" ++ e))

/-- The `{added, removed, changed}` record returned by the differ. -/
structure SchemaDiff where
  added : List String
  removed : List String
  changed : List String
deriving DecidableEq

/-- `checkPolicySchemaChanges(file1, file2)` from
`update_policy_templates.js` lines 350–363. Returns `none` (JS `undefined`)
when either argument's `properties` is falsy or absent. Note that `changed`
looks the flat name up *directly* in the top-level `properties` object
(`file2.properties[e]`), and `Array.includes` / `!=` on the two
`JSON.stringify` results are string comparisons (`undefined != undefined`
is `false`). -/
def checkPolicySchemaChanges (file1 file2 : JSVal) : Option SchemaDiff :=
  if !truthy (jsGet file1 "properties") || !truthy (jsGet file2 "properties") then
    none
  else
    let keys1 := extractFlatPolicyNamesFromPolicySchema file1
    let keys2 := extractFlatPolicyNamesFromPolicySchema file2
    let added := keys2.filter (fun e => !keys1.contains e)
    let removed := keys1.filter (fun e => !keys2.contains e)
    let changed := keys2.filter (fun e => keys1.contains e &&
      jsonStringifyOpt (jsGet (jsGet file2 "properties") e) !=
        jsonStringifyOpt (jsGet (jsGet file1 "properties") e))
    some ⟨added, removed, changed⟩

/-! ## The version comparator `compareVer` (`src/unnamed/part_000`, 773–800)

`prep` is the inner normalizer:

```js
return ("" + t)
  .replace(/[^0-9\.]+/g, function (c) {
    return "." + ((c = c.replace(/[\W_]+/, "")) ? c.toLowerCase().charCodeAt(0) - 65536 : "") + "." })
  .replace(/(?:\.0+)*(\.-[0-9]+)(\.[0-9]+)?\.*$/g, "$1$2")
  .split('.');
```

Both regex replacements are implemented directly over character lists with
the exact JavaScript semantics for these two patterns (leftmost match,
greedy repetition with backtracking). -/

/-- Characters the first regex keeps: `[0-9.]` (the pattern replaces every
maximal run of `[^0-9.]`). -/
def isVerChar (c : Char) : Bool := c.isDigit || c = '.'

/-- A word character other than underscore, i.e. the complement of the class
`[\W_]` (JS `\w` without the `u` flag is `[A-Za-z0-9_]`, so `[\W_]` is
`[^A-Za-z0-9]`). -/
def isWordNoUnderscore (c : Char) : Bool := c.isAlpha || c.isDigit

/-- `c.replace(/[\W_]+/, "")` (no `g` flag): remove the first maximal run of
characters in `[\W_]`, keep everything else. -/
def removeFirstNonWordRun : List Char → List Char
  | [] => []
  | c :: rest =>
    if isWordNoUnderscore c then c :: removeFirstNonWordRun rest
    else (c :: rest).dropWhile (fun x => !isWordNoUnderscore x)

/-- `charCodeAt(0)`: the first UTF-16 code unit of a string starting with
this character (the high surrogate for characters beyond the BMP). -/
def charCodeAt0 (c : Char) : Nat :=
  if c.toNat < 65536 then c.toNat else 55296 + (c.toNat - 65536) / 1024

/-- The text substituted for one matched run `c` of `[^0-9.]+`:
`((c = c.replace(/[\W_]+/, "")) ? c.toLowerCase().charCodeAt(0) - 65536 : "")`.
JS lowercases the whole cleaned run and takes the first code unit; for the
ASCII data at hand this is `Char.toLower` of its first character. -/
def tagChars (run : List Char) : List Char :=
  match removeFirstNonWordRun run with
  | [] => []
  | c :: _ => (toString ((charCodeAt0 c.toLower : Int) - 65536)).toList

/-- First regex replacement, fueled for structural recursion (`replace1`
supplies the length of the list, which bounds the suffix still to process,
so the `0` case is never reached): every maximal run of `[^0-9.]+` becomes
`"." + tag + "."`. -/
def replace1Fuel : Nat → List Char → List Char
  | 0, l => l
  | _ + 1, [] => []
  | fuel + 1, c :: rest =>
    if isVerChar c then c :: replace1Fuel fuel rest
    else
      let run := (c :: rest).takeWhile (fun x => !isVerChar x)
      let rem := (c :: rest).dropWhile (fun x => !isVerChar x)
      '.' :: (tagChars run ++ '.' :: replace1Fuel fuel rem)

def replace1 (l : List Char) : List Char := replace1Fuel l.length l

/-- Match `(\.-[0-9]+)(\.[0-9]+)?\.*$` at the current position, returning
the replacement text `$1$2` on success. Greedy `[0-9]+` needs no
backtracking here: surrendering digits would leave a digit in front of a
pattern part that can only accept `.` or the end. -/
def matchG1 : List Char → Option (List Char)
  | '.' :: '-' :: rest =>
    let ds := rest.takeWhile Char.isDigit
    if ds.isEmpty then none
    else
      let r2 := rest.drop ds.length
      let g1 := '.' :: '-' :: ds
      match r2 with
      | '.' :: r3 =>
        let ds2 := r3.takeWhile Char.isDigit
        if !ds2.isEmpty && (r3.drop ds2.length).all (fun x => x == '.') then
          some (g1 ++ '.' :: ds2)
        else if r2.all (fun x => x == '.') then some g1
        else none
      | _ => if r2.all (fun x => x == '.') then some g1 else none
  | _ => none

/-- Match `(?:\.0+)*` then `matchG1` at the current position. Each `(?:\.0+)`
iteration must consume `.` followed by *all* adjacent zeros: giving any zero
back leaves a `0` in front of a pattern part that can only accept `.`, and
skipping a possible iteration leaves `".0"` in front of `(\.-`, so the greedy
deterministic strategy is exhaustive. Fuel is the list length (consumption
strictly shrinks the list), so the `0` case only ever sees `[]`. -/
def matchStarFuel : Nat → List Char → Option (List Char)
  | 0, l => matchG1 l
  | fuel + 1, l =>
    match l with
    | '.' :: '0' :: rest => matchStarFuel fuel (rest.dropWhile (fun x => x == '0'))
    | _ => matchG1 l

/-- Second regex replacement
`.replace(/(?:\.0+)*(\.-[0-9]+)(\.[0-9]+)?\.*$/g, "$1$2")`: the pattern is
anchored at the end of the string and group 1 is mandatory, so with `g` there
is at most one (leftmost) match, which runs to the end of the string and is
replaced by `$1$2`. -/
def replace2 : List Char → List Char
  | [] => []
  | c :: rest =>
    match matchStarFuel (c :: rest).length (c :: rest) with
    | some r => r
    | none => c :: replace2 rest

/-- `split('.')`: `n` separators yield `n + 1` (possibly empty) segments. -/
def splitDots : List Char → List (List Char)
  | [] => [[]]
  | c :: rest =>
    if c = '.' then [] :: splitDots rest
    else
      match splitDots rest with
      | [] => [[c]]
      | seg :: segs => (c :: seg) :: segs

/-- The `prep` helper of `compareVer`: both replacements, then split on dots. -/
def prep (t : String) : List (List Char) :=
  splitDots (replace2 (replace1 t.toList))

/-- `ToInt32`: wrap an integer to `[-2^31, 2^31)` as JS `~~` does. -/
def toInt32 (n : Int) : Int :=
  let m := n % 4294967296
  if m < 2147483648 then m else m - 4294967296

def digitsToNat (l : List Char) : Nat :=
  l.foldl (fun acc c => 10 * acc + (c.toNat - 48)) 0

/-- `~~seg` for a segment produced by `prep`: `ToNumber` of the segment text
(`""` and out-of-range reads give `0`; an optionally `-`-signed digit run
gives its value; any other text is `NaN`, hence `0`), then `ToInt32`.
`prep` only produces empty or optionally-negated digit segments; for those
this model is exact except that JS doubles round digit runs beyond 2^53
before the wrap, which no claim exercises. -/
def segToInt32 (seg : List Char) : Int :=
  toInt32
    (match seg with
     | '-' :: ds => if !ds.isEmpty && ds.all Char.isDigit then -(digitsToNat ds : Int) else 0
     | ds => if !ds.isEmpty && ds.all Char.isDigit then (digitsToNat ds : Int) else 0)

/-- The comparison loop of `compareVer`
(`for (var i = 0; i < Math.max(a.length, b.length); i++)`), fueled with the
number of remaining iterations: `compareVer` starts it with fuel
`max a.length b.length` and `i = 0`. Reads past the end of a list are JS
`undefined`, which `~~` coerces to `0`, here `segToInt32 []`. -/
def cmpFromFuel (a b : List (List Char)) : Nat → Nat → Int
  | 0, _ => 0
  | fuel + 1, i =>
    let x := segToInt32 (a.getD i [])
    let y := segToInt32 (b.getD i [])
    if x > y then 1 else if x < y then -1 else cmpFromFuel a b fuel (i + 1)

/-- `compareVer(a, b)` from `src/unnamed/part_000`, lines 773–800. -/
def compareVer (a b : String) : Int :=
  if a ≠ "*" ∧ b = "*" then -1
  else if a = "*" ∧ b ≠ "*" then 1
  else if a = "*" ∧ b = "*" then 0
  else
    let pa := prep a
    let pb := prep b
    cmpFromFuel pa pb (max pa.length pb.length) 0

/-- Position-wise view of a segment list used in the ordering proofs:
segment `i`, coerced like the loop does (missing segments read as `0`). -/
def segAt (a : List (List Char)) : Nat → Int :=
  fun i => segToInt32 (a.getD i [])

/-- Abstract form of the comparison loop over two index functions; `cmpFromFuel`
is exactly this at `segAt`. -/
def cmpSeqF (f g : Nat → Int) : Nat → Nat → Int
  | 0, _ => 0
  | fuel + 1, i =>
    if f i > g i then 1 else if f i < g i then -1 else cmpSeqF f g fuel (i + 1)

/-! ## Concrete schema nodes used by the claims -/

/-- `{properties: {x: {type: "string"}}}` (the spec's `oldSchema`). -/
def oldSchemaExample : JSVal :=
  .obj [("properties", .obj [("x", .obj [("type", .str "string")])])]

/-- `{properties: {x: {type: "string"}, y: {type: "boolean"}}}` (the spec's
`newSchema`). -/
def newSchemaExample : JSVal :=
  .obj [("properties", .obj [("x", .obj [("type", .str "string")]),
    ("y", .obj [("type", .str "boolean")])])]

/-- `{properties: {a: {properties: {b: {type: "string"}}}}}`: a node whose
only change to `newNestedExample` is in the *nested* sub-node `a_b`. -/
def oldNestedExample : JSVal :=
  .obj [("properties", .obj [("a",
    .obj [("properties", .obj [("b", .obj [("type", .str "string")])])])])]

/-- `{properties: {a: {properties: {b: {type: "boolean"}}}}}`. -/
def newNestedExample : JSVal :=
  .obj [("properties", .obj [("a",
    .obj [("properties", .obj [("b", .obj [("type", .str "boolean")])])])])]

/-- `{properties: {a: {properties: {b: {}}}}}` (the spec's flatten example). -/
def flattenExampleNode : JSVal :=
  .obj [("properties", .obj [("a", .obj [("properties", .obj [("b", .obj [])])])])]

/-- `{properties: {a: {}}, patternProperties: {a: {}}}`: the name `a` occurs
under both grouping keys, so the flattening emits it twice. -/
def dupNameNode : JSVal :=
  .obj [("properties", .obj [("a", .obj [])]),
    ("patternProperties", .obj [("a", .obj [])])]

/-- `{properties: {}}`: comparable (truthy `properties`) but empty. -/
def emptyPropsNode : JSVal := .obj [("properties", .obj [])]

/-! ## Ordering lemmas for the comparison loop -/

theorem cmpFromFuel_eq_cmpSeqF (a b : List (List Char)) :
    ∀ n i, cmpFromFuel a b n i = cmpSeqF (segAt a) (segAt b) n i := by
  intro n
  induction n with
  | zero => intro i; rfl
  | succ n ih => intro i; simp only [cmpFromFuel, cmpSeqF, segAt, ih]

theorem segAt_eq_zero (a : List (List Char)) {i : Nat} (h : a.length ≤ i) :
    segAt a i = 0 := by
  simp only [segAt, List.getD_eq_default _ _ h]
  rfl

theorem cmpSeqF_eq_zero_of_agree (f g : Nat → Int) :
    ∀ n i, (∀ j, i ≤ j → f j = g j) → cmpSeqF f g n i = 0 := by
  intro n
  induction n with
  | zero => intro i _; rfl
  | succ n ih =>
    intro i h
    have hi := h i (Nat.le_refl i)
    simp only [cmpSeqF, hi, lt_irrefl, if_false, gt_iff_lt]
    exact ih (i + 1) (fun j hj => h j (by omega))

theorem cmpSeqF_fuel_ext (a b : List (List Char)) :
    ∀ n m i, max a.length b.length ≤ i + n → n ≤ m →
      cmpSeqF (segAt a) (segAt b) n i = cmpSeqF (segAt a) (segAt b) m i := by
  intro n
  induction n with
  | zero =>
    intro m i hmax _
    have hagree : ∀ j, i ≤ j → segAt a j = segAt b j := by
      intro j hj
      rw [segAt_eq_zero a (by omega), segAt_eq_zero b (by omega)]
    rw [cmpSeqF, cmpSeqF_eq_zero_of_agree _ _ m i hagree]
  | succ n ih =>
    intro m i hmax hnm
    cases m with
    | zero => omega
    | succ m =>
      simp only [cmpSeqF]
      split_ifs <;> first | rfl | omega | exact ih m (i + 1) (by omega) (by omega)

theorem cmpSeqF_neg (f g : Nat → Int) :
    ∀ n i, cmpSeqF f g n i = - cmpSeqF g f n i := by
  intro n
  induction n with
  | zero => intro i; rfl
  | succ n ih =>
    intro i
    simp only [cmpSeqF]
    split_ifs <;> first | omega | exact ih (i + 1)

theorem cmpSeqF_trans (f g h : Nat → Int) :
    ∀ n i, cmpSeqF f g n i ≤ 0 → cmpSeqF g h n i ≤ 0 → cmpSeqF f h n i ≤ 0 := by
  intro n
  induction n with
  | zero => intro i _ _; exact le_refl 0
  | succ n ih =>
    intro i h1 h2
    simp only [cmpSeqF] at h1 h2 ⊢
    split_ifs at h1 h2 ⊢ <;> first | omega | exact ih (i + 1) h1 h2

theorem cmpFromFuel_range (a b : List (List Char)) :
    ∀ n i, cmpFromFuel a b n i = -1 ∨ cmpFromFuel a b n i = 0 ∨ cmpFromFuel a b n i = 1 := by
  intro n
  induction n with
  | zero => intro i; right; left; rfl
  | succ n ih =>
    intro i
    simp only [cmpFromFuel]
    split_ifs <;> first | omega | exact ih (i + 1)

theorem compareVer_eq_cmpSeqF {a b : String} (ha : a ≠ "*") (hb : b ≠ "*")
    (N : Nat) (hN : max (prep a).length (prep b).length ≤ N) :
    compareVer a b = cmpSeqF (segAt (prep a)) (segAt (prep b)) N 0 := by
  rw [compareVer]
  rw [if_neg (by simp [hb]), if_neg (by simp [ha]), if_neg (by simp [ha])]
  rw [cmpFromFuel_eq_cmpSeqF]
  exact cmpSeqF_fuel_ext (prep a) (prep b) _ N 0 (by omega) hN

/-! ## Claims about `compareVer` -/

/-- C1: `compareVer` induces a valid total order on version-token strings:
for all strings `a`, `b`, `compareVer a b = -compareVer b a` (antisymmetry;
`-0 = 0` holds in `Int`), and for all `a`, `b`, `c`, if `compareVer a b ≤ 0`
and `compareVer b c ≤ 0` then `compareVer a c ≤ 0` (transitivity). -/
theorem compareVer_total_order :
    (∀ a b : String, compareVer a b = - compareVer b a) ∧
    (∀ a b c : String, compareVer a b ≤ 0 → compareVer b c ≤ 0 → compareVer a c ≤ 0) := by
  constructor
  · intro a b
    by_cases ha : a = "*" <;> by_cases hb : b = "*"
    · simp [compareVer, ha, hb]
    · simp [compareVer, ha, hb]
    · simp [compareVer, ha, hb]
    · rw [compareVer_eq_cmpSeqF ha hb (max (prep a).length (prep b).length) (le_refl _),
        compareVer_eq_cmpSeqF hb ha (max (prep a).length (prep b).length)
          (by rw [Nat.max_comm])]
      exact cmpSeqF_neg _ _ _ 0
  · intro a b c h1 h2
    by_cases hc : c = "*"
    · subst hc
      by_cases ha : a = "*" <;> simp [compareVer, ha]
    · by_cases hb : b = "*"
      · subst hb; simp [compareVer, hc] at h2
      · by_cases ha : a = "*"
        · subst ha; simp [compareVer, hb] at h1
        · set N := max (max (prep a).length (prep b).length)
            (max (max (prep b).length (prep c).length)
              (max (prep a).length (prep c).length)) with hNdef
          rw [compareVer_eq_cmpSeqF ha hb N (by omega)] at h1
          rw [compareVer_eq_cmpSeqF hb hc N (by omega)] at h2
          rw [compareVer_eq_cmpSeqF ha hc N (by omega)]
          exact cmpSeqF_trans _ _ _ N 0 h1 h2

/-- C1 witness: the order properties applied at concrete version strings. -/
theorem compareVer_total_order_witness :
    compareVer "60.5" "68.1" = - compareVer "68.1" "60.5" ∧ compareVer "60.5" "78" ≤ 0 :=
  ⟨compareVer_total_order.1 "60.5" "68.1",
    compareVer_total_order.2 "60.5" "68.1" "78" (by decide) (by decide)⟩

/-- C2: for every concrete version string `v ≠ "*"`,
`compareVer v "*" = -1` and `compareVer "*" v = 1`; and
`compareVer "*" "*" = 0` — the wildcard compares greater than every
non-wildcard value and equal to another wildcard. -/
theorem compareVer_wildcard :
    (∀ v : String, v ≠ "*" → compareVer v "*" = -1 ∧ compareVer "*" v = 1) ∧
    compareVer "*" "*" = 0 := by
  refine ⟨fun v hv => ⟨?_, ?_⟩, by decide⟩
  · simp [compareVer, hv]
  · simp [compareVer, hv]

/-- C2 witness: the wildcard laws applied at the concrete string "91.0". -/
theorem compareVer_wildcard_witness :
    compareVer "91.0" "*" = -1 ∧ compareVer "*" "91.0" = 1 :=
  compareVer_wildcard.1 "91.0" (by decide)

/-- C3: the spec's edge cases hold exactly: a pre-release build is less than
the release, missing zero segments are padding, and equal strings compare
equal. -/
theorem compareVer_edge_cases :
    compareVer "91.0a1" "91.0" = -1 ∧
    compareVer "4" "4.0.0" = 0 ∧
    compareVer "1.0.0" "1.0.0.0" = 0 ∧
    compareVer "102.0" "91.0" = 1 ∧
    compareVer "91.0" "91.0" = 0 := by
  refine ⟨by decide, by decide, by decide, by decide, by decide⟩

/-- C8: `compareVer` is a total function whose result is always one of
`-1`, `0`, `1`; empty segments coerce to `0`, and a segment that is not an
optionally-negated digit run (a malformed fragment) coerces to `0` as well. -/
theorem compareVer_total_range :
    (∀ a b : String, compareVer a b = -1 ∨ compareVer a b = 0 ∨ compareVer a b = 1) ∧
    segToInt32 [] = 0 ∧
    (∀ (c : Char) (s : List Char), c.isDigit = false → c ≠ '-' →
      segToInt32 (c :: s) = 0) := by
  refine ⟨fun a b => ?_, rfl, fun c s hd hm => ?_⟩
  · rw [compareVer]
    split_ifs
    · left; rfl
    · right; right; rfl
    · right; left; rfl
    · exact cmpFromFuel_range _ _ _ 0
  · rw [segToInt32.eq_def]
    split
    · next ds heq => exact absurd (List.cons.injEq .. ▸ heq).1 hm
    · simp [List.all_cons, hd]
      rfl

/-- C8 witness: range and coercion applied at concrete malformed inputs. -/
theorem compareVer_total_range_witness :
    (compareVer "not-a-version" "" = -1 ∨ compareVer "not-a-version" "" = 0 ∨
      compareVer "not-a-version" "" = 1) ∧
    segToInt32 ('x' :: 'y' :: []) = 0 :=
  ⟨compareVer_total_range.1 "not-a-version" "",
    compareVer_total_range.2.2 'x' ('y' :: []) (by decide) (by decide)⟩

/-- C9 counterexample: the claim says `compareVer "91.0rc10" "91.0rc2"` does
*not* return `1`; the code does return `1`, because the digits after the tag
form their own numeric segment and `10 > 2`. -/
theorem compareVer_rc10_rc2_counterexample :
    compareVer "91.0rc10" "91.0rc2" = 1 := by decide

/-- C9 amended: multi-digit tag suffixes *are* digit-compared. The
normalizer splits `"91.0rc10"` into the segments `91`, `-65422` (from the
code point of `r`), `10`, and `"91.0rc2"` into `91`, `-65422`, `2`; the
trailing digit groups are compared as the integers `10 > 2`, so
`compareVer "91.0rc10" "91.0rc2" = 1`. -/
theorem compareVer_multidigit_tag_amended :
    prep "91.0rc10" = ["91".toList, "-65422".toList, "10".toList] ∧
    prep "91.0rc2" = ["91".toList, "-65422".toList, "2".toList] ∧
    segToInt32 "10".toList = 10 ∧
    segToInt32 "2".toList = 2 ∧
    compareVer "91.0rc10" "91.0rc2" = 1 := by
  refine ⟨by decide, by decide, by decide, by decide, by decide⟩

/-! ## Structural lemmas for the schema flattening -/

theorem jsSize_pos (v : JSVal) : 1 ≤ jsSize v := by
  cases v <;> simp [jsSize]

theorem jsSize_jsFind (fs : List (String × JSVal)) (key : String) :
    jsFind fs key = .undefined ∨ jsSize (jsFind fs key) < jsSizeFields fs := by
  induction fs with
  | nil => exact Or.inl rfl
  | cons kv rest ih =>
    obtain ⟨k, v⟩ := kv
    simp only [jsFind]
    by_cases hk : k = key
    · rw [if_pos hk]
      right
      simp only [jsSizeFields]
      omega
    · rw [if_neg hk]
      rcases ih with h | h
      · exact Or.inl h
      · right
        simp only [jsSizeFields]
        omega

theorem jsSize_of_mem_fields {p : String × JSVal} :
    ∀ gs : List (String × JSVal), p ∈ gs → jsSize p.2 < jsSizeFields gs := by
  intro gs
  induction gs with
  | nil => intro h; cases h
  | cons kv rest ih =>
    intro h
    obtain ⟨k, v⟩ := kv
    rcases List.mem_cons.1 h with h | h
    · subst h
      simp only [jsSizeFields]
      omega
    · have := ih h
      simp only [jsSizeFields]
      omega

theorem jsSize_of_mem_group (data : JSVal) (key : String) (p : String × JSVal)
    (hp : p ∈ groupEntries (jsGet data key)) : jsSize p.2 < jsSize data := by
  cases data with
  | obj fs =>
    simp only [jsGet] at hp
    rcases jsSize_jsFind fs key with h | h
    · rw [h] at hp
      simp [groupEntries, truthy] at hp
    · cases hv : jsFind fs key with
      | obj gs =>
        rw [hv] at hp h
        simp only [groupEntries, truthy, jsEntries, if_pos] at hp
        have h2 := jsSize_of_mem_fields gs hp
        simp only [jsSize] at h ⊢
        omega
      | undefined => rw [hv] at hp; simp [groupEntries, truthy] at hp
      | null => rw [hv] at hp; simp [groupEntries, truthy] at hp
      | bool b => rw [hv] at hp; cases b <;> simp [groupEntries, truthy, jsEntries] at hp
      | num n => rw [hv] at hp; simp [groupEntries, truthy, jsEntries] at hp
      | str s => rw [hv] at hp; simp [groupEntries, truthy, jsEntries] at hp
      | arr vs => rw [hv] at hp; simp [groupEntries, truthy, jsEntries] at hp
  | undefined => simp [jsGet, groupEntries, truthy] at hp
  | null => simp [jsGet, groupEntries, truthy] at hp
  | bool b => simp [jsGet, groupEntries, truthy] at hp
  | num n => simp [jsGet, groupEntries, truthy] at hp
  | str s => simp [jsGet, groupEntries, truthy] at hp
  | arr vs => simp [jsGet, groupEntries, truthy] at hp

theorem flatMap_cong {α β : Type} (l : List α) (f g : α → List β)
    (h : ∀ x ∈ l, f x = g x) : l.flatMap f = l.flatMap g := by
  induction l with
  | nil => rfl
  | cons a rest ih =>
    rw [List.flatMap_cons, List.flatMap_cons, h a (List.mem_cons_self a rest),
      ih (fun x hx => h x (List.mem_cons_of_mem a hx))]

theorem extractFlatFuel_congr :
    ∀ (n m : Nat) (data : JSVal), jsSize data ≤ n → jsSize data ≤ m →
      extractFlatFuel n data = extractFlatFuel m data := by
  intro n
  induction n with
  | zero => intro m data h _; have := jsSize_pos data; omega
  | succ n ih =>
    intro m data hn hm
    cases m with
    | zero => have := jsSize_pos data; omega
    | succ m =>
      simp only [extractFlatFuel]
      apply flatMap_cong
      intro p hp
      have hlt : jsSize p.2 < jsSize data := by
        rcases List.mem_append.1 hp with h | h
        · exact jsSize_of_mem_group data "properties" p h
        · exact jsSize_of_mem_group data "patternProperties" p h
      rw [ih m p.2 (by omega) (by omega)]

theorem extractFlat_unfold (data : JSVal) :
    extractFlatPolicyNamesFromPolicySchema data =
      (groupEntries (jsGet data "properties") ++
          groupEntries (jsGet data "patternProperties")).flatMap
        (fun p => p.1 :: (extractFlatPolicyNamesFromPolicySchema p.2).map
          (fun e => p.1 ++ "_" ++ e)) := by
  have hpos := jsSize_pos data
  rw [extractFlatPolicyNamesFromPolicySchema]
  cases hs : jsSize data with
  | zero => omega
  | succ k =>
    simp only [extractFlatFuel]
    apply flatMap_cong
    intro p hp
    have hlt : jsSize p.2 < jsSize data := by
      rcases List.mem_append.1 hp with h | h
      · exact jsSize_of_mem_group data "properties" p h
      · exact jsSize_of_mem_group data "patternProperties" p h
    rw [extractFlatPolicyNamesFromPolicySchema,
      extractFlatFuel_congr k (jsSize p.2) p.2 (by omega) (le_refl _)]

/-! ## Claims about the schema flattening and differ -/

/-- C7: the flattening processes `properties` then `patternProperties`,
iterates each one's named children in their given order, and for each child
emits the child's own name followed by the child's recursively flattened
names prefixed with `childName_`, preserving relative order; in particular
`flatten({properties:{a:{properties:{b:{}}}}})` is exactly `["a", "a_b"]`. -/
theorem extractFlat_traversal :
    (∀ ps pps : List (String × JSVal),
      extractFlatPolicyNamesFromPolicySchema
        (.obj [("properties", .obj ps), ("patternProperties", .obj pps)]) =
        flatEntries ps ++ flatEntries pps) ∧
    extractFlatPolicyNamesFromPolicySchema flattenExampleNode = ["a", "a_b"] := by
  constructor
  · intro ps pps
    rw [extractFlat_unfold]
    have h1 : jsGet (JSVal.obj [("properties", .obj ps), ("patternProperties", .obj pps)])
        "properties" = .obj ps := rfl
    have h2 : jsGet (JSVal.obj [("properties", .obj ps), ("patternProperties", .obj pps)])
        "patternProperties" = .obj pps := rfl
    rw [h1, h2]
    have g1 : groupEntries (JSVal.obj ps) = ps := rfl
    have g2 : groupEntries (JSVal.obj pps) = pps := rfl
    rw [g1, g2, List.flatMap_append]
    rfl
  · decide

/-- C5: when both arguments have an object-valued `properties` key, the
differ returns `added` = new flat names not in the old flattening and
`removed` = old flat names not in the new, each in flatten-traversal order;
on the spec's example the result is `added=["y"], removed=[], changed=[]`. -/
theorem checkPolicySchemaChanges_added_removed :
    (∀ (f1 f2 : JSVal) (ps1 ps2 : List (String × JSVal)),
      jsGet f1 "properties" = .obj ps1 → jsGet f2 "properties" = .obj ps2 →
      ∃ ch, checkPolicySchemaChanges f1 f2 =
        some ⟨(extractFlatPolicyNamesFromPolicySchema f2).filter
            (fun e => !(extractFlatPolicyNamesFromPolicySchema f1).contains e),
          (extractFlatPolicyNamesFromPolicySchema f1).filter
            (fun e => !(extractFlatPolicyNamesFromPolicySchema f2).contains e), ch⟩) ∧
    checkPolicySchemaChanges oldSchemaExample newSchemaExample = some ⟨["y"], [], []⟩ := by
  constructor
  · intro f1 f2 ps1 ps2 h1 h2
    refine ⟨(extractFlatPolicyNamesFromPolicySchema f2).filter
      (fun e => (extractFlatPolicyNamesFromPolicySchema f1).contains e &&
        jsonStringifyOpt (jsGet (jsGet f2 "properties") e) !=
          jsonStringifyOpt (jsGet (jsGet f1 "properties") e)), ?_⟩
    unfold checkPolicySchemaChanges
    rw [h1, h2]
    rfl
  · decide

/-- C5 witness: the general added/removed law applied at the spec's example
schemas. -/
theorem checkPolicySchemaChanges_added_removed_witness :
    ∃ ch, checkPolicySchemaChanges oldSchemaExample newSchemaExample =
      some ⟨(extractFlatPolicyNamesFromPolicySchema newSchemaExample).filter
          (fun e => !(extractFlatPolicyNamesFromPolicySchema oldSchemaExample).contains e),
        (extractFlatPolicyNamesFromPolicySchema oldSchemaExample).filter
          (fun e => !(extractFlatPolicyNamesFromPolicySchema newSchemaExample).contains e), ch⟩ :=
  checkPolicySchemaChanges_added_removed.1 oldSchemaExample newSchemaExample
    [("x", .obj [("type", .str "string")])]
    [("x", .obj [("type", .str "string")]), ("y", .obj [("type", .str "boolean")])]
    rfl rfl

/-- C6: if either argument's `properties` key is absent — in particular when
the argument is `null` or `undefined` — the differ returns the absent result
(`none`, JS `undefined`) rather than a diff object, and no error occurs. -/
theorem checkPolicySchemaChanges_guard :
    (∀ f1 f2 : JSVal, jsGet f1 "properties" = .undefined →
      checkPolicySchemaChanges f1 f2 = none) ∧
    (∀ f1 f2 : JSVal, jsGet f2 "properties" = .undefined →
      checkPolicySchemaChanges f1 f2 = none) ∧
    (∀ f : JSVal, checkPolicySchemaChanges .null f = none ∧
      checkPolicySchemaChanges f .null = none ∧
      checkPolicySchemaChanges .undefined f = none ∧
      checkPolicySchemaChanges f .undefined = none) := by
  have left : ∀ f1 f2 : JSVal, jsGet f1 "properties" = .undefined →
      checkPolicySchemaChanges f1 f2 = none := by
    intro f1 f2 h
    unfold checkPolicySchemaChanges
    rw [h]
    rfl
  have right : ∀ f1 f2 : JSVal, jsGet f2 "properties" = .undefined →
      checkPolicySchemaChanges f1 f2 = none := by
    intro f1 f2 h
    unfold checkPolicySchemaChanges
    rw [h]
    simp [truthy]
  exact ⟨left, right, fun f =>
    ⟨left .null f rfl, right f .null rfl, left .undefined f rfl, right f .undefined rfl⟩⟩

/-- C6 witness: the guard applied at a concrete argument without
`properties`. -/
theorem checkPolicySchemaChanges_guard_witness :
    checkPolicySchemaChanges (.obj [("enum", .str "x")]) emptyPropsNode = none :=
  checkPolicySchemaChanges_guard.1 (.obj [("enum", .str "x")]) emptyPropsNode rfl

/-- C10: the outputs are ordered lists in traversal order, not deduplicated
sets: with the name `a` under both `properties` and `patternProperties` the
flattening emits `a` twice, and `added` / `removed` then contain it twice. -/
theorem extractFlat_duplicates :
    extractFlatPolicyNamesFromPolicySchema dupNameNode = ["a", "a"] ∧
    checkPolicySchemaChanges emptyPropsNode dupNameNode = some ⟨["a", "a"], [], []⟩ ∧
    checkPolicySchemaChanges dupNameNode emptyPropsNode = some ⟨[], ["a", "a"], []⟩ := by
  refine ⟨by decide, by decide, by decide⟩

/-- C4 counterexample: the flat name `a_b` occurs in both flattenings and
its bound (unflattened) sub-nodes serialize differently
(`{"type":"string"}` vs `{"type":"boolean"}`), yet `changed` is `["a"]`
and does not contain `a_b`: `changed` is *not* computed from the sub-node
bound during flattening. -/
theorem checkPolicySchemaChanges_nested_changed_counterexample :
    extractFlatPolicyNamesFromPolicySchema oldNestedExample = ["a", "a_b"] ∧
    extractFlatPolicyNamesFromPolicySchema newNestedExample = ["a", "a_b"] ∧
    (extractFlatPairs oldNestedExample).map (fun p => (p.1, jsonStr p.2)) =
      [("a", "\x7b\"properties\":\x7b\"b\":\x7b\"type\":\"string\"\x7d\x7d\x7d"),
        ("a_b", "\x7b\"type\":\"string\"\x7d")] ∧
    (extractFlatPairs newNestedExample).map (fun p => (p.1, jsonStr p.2)) =
      [("a", "\x7b\"properties\":\x7b\"b\":\x7b\"type\":\"boolean\"\x7d\x7d\x7d"),
        ("a_b", "\x7b\"type\":\"boolean\"\x7d")] ∧
    checkPolicySchemaChanges oldNestedExample newNestedExample = some ⟨[], [], ["a"]⟩ ∧
    "a_b" ∉ (["a"] : List String) := by
  refine ⟨by decide, by decide, by decide, by decide, by decide, by decide⟩

/-- C4 amended: a flat name is in `changed` exactly when it occurs in both
flattenings and the `JSON.stringify` serializations of its *direct lookups
in the two top-level `properties` objects* (`fileN.properties[e]`,
`undefined` when the full flat name is not a literal top-level key) differ;
nested flat names such as `a_b` therefore compare `undefined` against
`undefined` and are never reported. -/
theorem checkPolicySchemaChanges_changed_amended :
    ∀ (f1 f2 : JSVal) (d : SchemaDiff) (e : String),
      checkPolicySchemaChanges f1 f2 = some d →
      (e ∈ d.changed ↔
        e ∈ extractFlatPolicyNamesFromPolicySchema f2 ∧
        e ∈ extractFlatPolicyNamesFromPolicySchema f1 ∧
        jsonStringifyOpt (jsGet (jsGet f2 "properties") e) ≠
          jsonStringifyOpt (jsGet (jsGet f1 "properties") e)) := by
  intro f1 f2 d e h
  unfold checkPolicySchemaChanges at h
  split at h
  · exact absurd h (by simp)
  · rw [Option.some.injEq] at h
    subst h
    simp [List.mem_filter, and_assoc]

/-- C4 amended witness: the membership law applied at the nested example,
at the flat name `a_b`. -/
theorem checkPolicySchemaChanges_changed_amended_witness :
    "a_b" ∈ (SchemaDiff.mk [] [] ["a"]).changed ↔
      "a_b" ∈ extractFlatPolicyNamesFromPolicySchema newNestedExample ∧
      "a_b" ∈ extractFlatPolicyNamesFromPolicySchema oldNestedExample ∧
      jsonStringifyOpt (jsGet (jsGet newNestedExample "properties") "a_b") ≠
        jsonStringifyOpt (jsGet (jsGet oldNestedExample "properties") "a_b") :=
  checkPolicySchemaChanges_changed_amended oldNestedExample newNestedExample
    (SchemaDiff.mk [] [] ["a"]) "a_b" (by decide)
